import Mathlib

/-!
Verification of the VegvisrCrossCulturalSearch front end.

The repository is a browser UI over a remote generative-language API
(`src/services/geminiService.ts`) plus a React view layer (the `App`
component and presentation components).  This file gives a shallow
embedding of the code the claims are about:

* remote responses, the API credential, and `JSON.parse` are environment
  inputs (the network and the JS runtime are external to the repository);
* each service operation becomes a pure function from those inputs to an
  `Except`-style result together with the number of network requests it
  performed;
* the wiki-mode controller (`App`'s `fetchAllData` effect) becomes a step
  function on an explicit state, driven by a list of events (topic
  changes, stream chunks, stream completion) that models the JS event
  loop's interleaving;
* JS string primitives (`trim`, `startsWith`, `toLowerCase`, the markdown
  code-fence regex) are modelled character-exactly on `List Char` for the
  ASCII range used by the code.
-/

namespace Vegvisr

/-! ## JS string primitives -/

/-- Whitespace as matched by the code's `\s` regex class and `trim()`
(the ASCII part: space, tab, line feed, carriage return, vertical tab,
form feed). -/
def isJsWs (c : Char) : Bool :=
  c = ' ' || c = '\t' || c = '\n' || c = '\r' || c = '\x0b' || c = '\x0c'

/-- `String.prototype.trim` on a character list: drop whitespace at both
ends. -/
def trimL (l : List Char) : List Char :=
  ((l.dropWhile isJsWs).reverse.dropWhile isJsWs).reverse

/-- `String.prototype.trim`. -/
def jsTrim (s : String) : String := String.mk (trimL s.data)

/-- `String.prototype.startsWith`. -/
def jsStartsWith (s pre : String) : Bool :=
  s.data.take pre.data.length == pre.data

/-- `String.prototype.endsWith`. -/
def jsEndsWith (s suf : String) : Bool :=
  s.data.reverse.take suf.data.length == suf.data.reverse

/-- `String.prototype.toLowerCase` (ASCII behaviour): lower-case each
character. -/
def jsToLower (s : String) : String := String.mk (s.data.map Char.toLower)

/-! ## A model of `JSON.parse` values

`JSON.parse` itself is part of the JS runtime, not of this repository, so
operations take the parser as an environment input of type `JsonParse`
below; a parse failure carries the engine's `SyntaxError` message. -/

inductive Json where
  | null : Json
  | bool (b : Bool) : Json
  | num (n : Int) : Json
  | str (s : String) : Json
  | arr (elems : List Json) : Json
  | obj (fields : List (String × Json)) : Json

/-- Environment input standing for `JSON.parse`. -/
def JsonParse : Type := String → Except String Json

/-- JS property access `j[k]` on a parsed value: `none` stands for
`undefined`. -/
def jsGet (j : Json) (k : String) : Option Json :=
  match j with
  | .obj fields => (fields.find? (fun p => p.1 == k)).map (fun p => p.2)
  | _ => none

/-- JS truthiness test (`!x`) on a parsed JSON value. -/
def jsFalsy (j : Json) : Bool :=
  match j with
  | .null => true
  | .bool b => !b
  | .num n => n == 0
  | .str s => s.data.isEmpty
  | _ => false

/-! ## The markdown code-fence regex

All three fence-stripping call sites use the same regex
`/^```(?:json)?\s*\n?(.*?)\n?\s*```$/s` followed by
`if (match && match[1]) jsonStr = match[1].trim()`.
The regex is anchored at both ends, so `String.prototype.match` either
matches the whole string or fails.  The functions below implement its
backtracking search on `List Char`, innermost-greedy-first exactly as a
JS engine does, returning capture group 1 on success. -/

/-- The backquote character. -/
def bq : Char := '\x60'

/-- The closing `` ``` `` of the fence. -/
def ticks3 : List Char := [bq, bq, bq]

/-- After the lazy capture, `\s*` must reach the final `` ``` `` at the
end of the string.  `\s*` backtracks from the longest run, but a shorter
run leaves a whitespace character where `` ` `` is required, so only the
maximal run can succeed. -/
def wsTicksEnd (l : List Char) : Bool :=
  l.dropWhile isJsWs == ticks3

/-- `\n?\s*```$`: the optional newline is tried greedily first. -/
def tailMatch (l : List Char) : Bool :=
  match l with
  | c :: rest => if c = '\n' then wsTicksEnd rest || wsTicksEnd l else wsTicksEnd l
  | [] => wsTicksEnd l

/-- The lazy group `(.*?)` with `/s`: try the shortest capture first and
grow it until `\n?\s*```$` matches the remainder.  `acc` holds the
reversed capture so far. -/
def lazyCapture : List Char → List Char → Option (List Char)
  | acc, [] => if tailMatch [] then some acc.reverse else none
  | acc, c :: rest =>
    if tailMatch (c :: rest) then some acc.reverse else lazyCapture (c :: acc) rest

/-- `\n?` before the capture, greedy with backtracking. -/
def nlOptThenCapture (l : List Char) : Option (List Char) :=
  match l with
  | c :: rest =>
      if c = '\n' then (lazyCapture [] rest).orElse (fun _ => lazyCapture [] l)
      else lazyCapture [] l
  | [] => lazyCapture [] []

/-- `\s*` before the optional newline, greedy with backtracking: consume
the longest whitespace run first, then un-consume one character at a
time. -/
def wsSearch : List Char → Option (List Char)
  | [] => nlOptThenCapture []
  | c :: rest =>
      if isJsWs c then (wsSearch rest).orElse (fun _ => nlOptThenCapture (c :: rest))
      else nlOptThenCapture (c :: rest)

/-- `(?:json)?`, greedy: try to consume `json` first. -/
def afterTicks (l : List Char) : Option (List Char) :=
  if l.take 4 = ['j', 's', 'o', 'n'] then
    (wsSearch (l.drop 4)).orElse (fun _ => wsSearch l)
  else wsSearch l

/-- The whole anchored regex: returns capture group 1 when the string
matches. -/
def fenceMatch (l : List Char) : Option (List Char) :=
  if l.take 3 = ticks3 then afterTicks (l.drop 3) else none

/-- `if (match && match[1]) jsonStr = match[1].trim();` — note an empty
capture is falsy in JS, so it leaves the string unchanged. -/
def applyFenceL (l : List Char) : List Char :=
  match fenceMatch l with
  | some inner => if inner = [] then l else trimL inner
  | none => l

/-- The string handed to `JSON.parse` by the three fence-stripping
operations: `response.text.trim()` followed by the fence strip. -/
def fencedPayloadL (l : List Char) : List Char :=
  applyFenceL (trimL l)

/-- `generateAsciiArt`'s string-to-parse pipeline (geminiService.ts
182-192). -/
def artPayload (raw : String) : String := String.mk (fencedPayloadL raw.data)

/-- `getCrossCulturalConcepts`'s string-to-parse pipeline (geminiService.ts
271-277). -/
def conceptsPayload (raw : String) : String := String.mk (fencedPayloadL raw.data)

/-- `performPhonosemanticSearch`'s string-to-parse pipeline
(geminiService.ts 360-366). -/
def phonoPayload (raw : String) : String := String.mk (fencedPayloadL raw.data)

/-- `getScriptForWord`'s string-to-parse pipeline (geminiService.ts 428):
only `response.text.trim()`, with no fence handling. -/
def scriptPayload (raw : String) : String := jsTrim raw

/-- Guard: the list is non-empty and its first character is not
whitespace. -/
def headNonWs (p : List Char) : Bool :=
  match p.head? with
  | some c => !isJsWs c
  | none => false

/-- Guard: the list is non-empty and its last character is not
whitespace. -/
def lastNonWs (p : List Char) : Bool :=
  match p.getLast? with
  | some c => !isJsWs c
  | none => false

/-- The closing part of the canonical fence: a newline followed by
`` ``` ``. -/
def closeF : List Char := '\n' :: ticks3

/-- A payload wrapped in the canonical fenced code block
`` ```json\n<payload>\n``` ``. -/
def fenceWrap (p : List Char) : List Char :=
  bq :: bq :: bq :: 'j' :: 's' :: 'o' :: 'n' :: '\n' :: (p ++ closeF)

/-! ## The API gateway operations (src/services/geminiService.ts)

Each operation takes the credential (`Option String` for
`process.env.API_KEY`; `none` = unset), the remote response(s) as an
environment input, and the `JSON.parse` parser.  It returns the
`Except`-result of the JS promise together with the number of network
requests issued.  Prompt texts only influence the remote model, which is
part of the environment, so they are not modelled. -/

/-- The message thrown by every operation when `API_KEY` is unset. -/
def configErrMsg : String := "API_KEY is not configured."

/-- The fragment `streamDefinition` yields when `API_KEY` is unset. -/
def streamConfigFragment : String :=
  "Error: API_KEY is not configured. Please check your environment variables to continue."

/-- Behaviour of the remote definition stream: either it completes after
a list of chunks, or it fails with an error message after some chunks
(`chunk.text` may be empty, which the generator skips). -/
inductive StreamEnv where
  | ok (chunks : List String)
  | failAfter (chunks : List String) (msg : String)

/-- What a caller of `streamDefinition` observes: the fragments yielded
in order, the error the generator raised (if any) after the last
fragment, and the number of network requests made. -/
structure StreamOut where
  yields : List String
  raised : Option String
  calls : Nat
deriving DecidableEq

/-- The error-prefixed fragment yielded on a mid-stream failure
(geminiService.ts 100). -/
def errFragment (topic msg : String) : String :=
  "Error: Could not generate content for \"" ++ topic ++ "\". " ++ msg

/-- `streamDefinition` (geminiService.ts 71-104).  With no key it yields
the configuration fragment and returns; otherwise it forwards non-empty
chunk texts, and on a remote error yields one error fragment and then
re-raises the message. -/
def streamDefinition (key : Option String) (topic : String) (env : StreamEnv) : StreamOut :=
  match key with
  | none => ⟨[streamConfigFragment], none, 0⟩
  | some _ =>
    match env with
    | .ok chunks => ⟨chunks.filter (fun c => c != ""), none, 1⟩
    | .failAfter chunks msg =>
        ⟨chunks.filter (fun c => c != "") ++ [errFragment topic msg], some msg, 1⟩

/-- `getRandomWord` (geminiService.ts 110-133). -/
def getRandomWord (key : Option String) (resp : Except String String) :
    Except String String × Nat :=
  match key with
  | none => (.error configErrMsg, 0)
  | some _ =>
    match resp with
    | .ok t => (.ok (jsTrim t), 1)
    | .error e => (.error ("Could not get random word: " ++ e), 1)

/-- The parsed art payload; `text` stays `none` because
`ENABLE_ASCII_TEXT_GENERATION` is `false` in the source. -/
structure AsciiArtData where
  art : String
  text : Option String := none
deriving DecidableEq

/-- One attempt of `generateAsciiArt`'s loop body (geminiService.ts
176-215): trim, strip an optional fence, require `{...}`, parse, and
require a non-empty string `art` property. -/
def attemptArt (parse : JsonParse) (raw : String) : Except String AsciiArtData :=
  let payload := artPayload raw
  if jsStartsWith payload "\x7b" && jsEndsWith payload "\x7d" then
    match parse payload with
    | .error m => .error m
    | .ok j =>
      match jsGet j "art" with
      | some (.str a) =>
          if (trimL a.data).length = 0 then .error "Invalid or empty ASCII art in response"
          else .ok { art := a }
      | _ => .error "Invalid or empty ASCII art in response"
  else .error "Response is not a valid JSON object"

/-- `const maxRetries = 1;` (geminiService.ts 163). -/
def maxRetries : Nat := 1

/-- The `for (let attempt = 1; attempt <= maxRetries; attempt++)` loop of
`generateAsciiArt`.  `remaining` counts the iterations still allowed
after the current one (`remaining = maxRetries - attempt`), so
`remaining = 0` is the source's `attempt === maxRetries` test.
`responses n` is the remote outcome of the `n`-th request (0-based);
`.error` models the call itself throwing.  Returns the result and the
number of attempts (network requests) performed. -/
def artLoop (parse : JsonParse) (responses : Nat → Except String String) :
    Nat → Nat → Option String → Except String AsciiArtData × Nat
  | attempt, 0, lastErr =>
    -- the `for` condition failed: the post-loop `throw lastError || ...`
    (match lastErr with
     | some e => .error e
     | none => .error "All retry attempts failed", attempt - 1)
  | attempt, remaining + 1, _ =>
    let res : Except String AsciiArtData :=
      match responses (attempt - 1) with
      | .error e => .error e
      | .ok text => attemptArt parse text
    match res with
    | .ok a => (.ok a, attempt)
    | .error msg =>
      if remaining = 0 then
        (.error ("Could not generate ASCII art after " ++ toString maxRetries
            ++ " attempts: " ++ msg), attempt)
      else artLoop parse responses (attempt + 1) remaining (some msg)

/-- `generateAsciiArt` (geminiService.ts 140-231). -/
def generateAsciiArt (key : Option String) (topic : String) (parse : JsonParse)
    (responses : Nat → Except String String) : Except String AsciiArtData × Nat :=
  match key, topic with
  | none, _ => (.error configErrMsg, 0)
  | some _, _ => artLoop parse responses 1 maxRetries none

/-- `getCrossCulturalConcepts` (geminiService.ts 238-290).  The TS cast
`as CulturalConcept[]` performs no runtime validation, so the result is
the parsed array's elements unchanged. -/
def getCrossCulturalConcepts (key : Option String) (topic : String) (parse : JsonParse)
    (resp : Except String String) : Except String (List Json) × Nat :=
  match key, topic with
  | none, _ => (.error configErrMsg, 0)
  | some _, _ =>
    match resp with
    | .error e => (.error ("Could not fetch cultural concepts: " ++ e), 1)
    | .ok text =>
      match parse (conceptsPayload text) with
      | .error m => (.error ("Could not fetch cultural concepts: " ++ m), 1)
      | .ok j =>
        match j with
        | .arr cs => (.ok cs, 1)
        | _ =>
          (.error "Could not fetch cultural concepts: Response is not a valid array of concepts.", 1)

/-- The search filters record (geminiService.ts 297-301). -/
inductive MotifPosition where
  | initialPos | medialPos | finalPos | anyPos
deriving DecidableEq

/-- `{position, languages, fuzzy}`. -/
structure SearchFilters where
  position : MotifPosition
  languages : String
  fuzzy : Bool
deriving DecidableEq

/-- `if (!data || !Array.isArray(data.results))` (geminiService.ts 369):
`some rs` exactly when the parsed value is truthy and its `results`
property is an array. -/
def resultsField (j : Json) : Option (List Json) :=
  if jsFalsy j then none
  else
    match jsGet j "results" with
    | some (.arr rs) => some rs
    | _ => none

/-- `performPhonosemanticSearch` (geminiService.ts 297-379).  Filters only
shape the prompt, hence the remote environment. -/
def performPhonosemanticSearch (key : Option String) (filters : SearchFilters)
    (parse : JsonParse) (resp : Except String String) : Except String (List Json) × Nat :=
  match key, filters with
  | none, _ => (.error configErrMsg, 0)
  | some _, _ =>
    match resp with
    | .error e => (.error ("Could not perform phonosemantic search: " ++ e), 1)
    | .ok text =>
      match parse (phonoPayload text) with
      | .error m => (.error ("Could not perform phonosemantic search: " ++ m), 1)
      | .ok j =>
        match resultsField j with
        | some rs => (.ok rs, 1)
        | none =>
          (.error "Could not perform phonosemantic search: Invalid response format from API.", 1)

/-- The value `getScriptForWord` resolves with: the parsed object spread
together with the `language` and `word` inputs (geminiService.ts
435-439); the spread fields are not runtime-validated. -/
structure ScriptOut where
  parsed : Json
  language : String
  word : String

/-- `!parsed.script` (geminiService.ts 431): a missing property is
`undefined`, hence falsy. -/
def scriptFalsy (j : Json) : Bool :=
  match jsGet j "script" with
  | none => true
  | some v => jsFalsy v

/-- The catch-block wrapper of `getScriptForWord` (geminiService.ts 444). -/
def scriptWrap (word language m : String) : String :=
  "Could not get script for \"" ++ word ++ "\" in " ++ language ++ ": " ++ m

/-- `getScriptForWord` (geminiService.ts 388-446).  Note: it parses the
trimmed response text directly, without fence stripping. -/
def getScriptForWord (key : Option String) (word language : String) (parse : JsonParse)
    (resp : Except String String) : Except String ScriptOut × Nat :=
  match key with
  | none => (.error configErrMsg, 0)
  | some _ =>
    match resp with
    | .error e => (.error (scriptWrap word language e), 1)
    | .ok text =>
      match parse (scriptPayload text) with
      | .error m => (.error (scriptWrap word language m), 1)
      | .ok j =>
        if scriptFalsy j then
          (.error (scriptWrap word language
            ("Could not find a representation for \"" ++ word ++ "\" in " ++ language ++ ".")), 1)
        else (.ok ⟨j, language, word⟩, 1)

/-! ## The App component (src/unnamed/part_000) -/

/-- The three UI modes. -/
inductive AppMode where
  | wiki | miner | writer
deriving DecidableEq

/-- `PREDEFINED_WORDS` (part_000 386-399). -/
def PREDEFINED_WORDS : List String := [
  "Balance", "Harmony", "Discord", "Unity", "Fragmentation", "Clarity", "Ambiguity",
  "Presence", "Absence", "Creation", "Destruction", "Light", "Shadow", "Beginning",
  "Ending", "Rising", "Falling", "Connection", "Isolation", "Hope", "Despair",
  "Order and chaos", "Light and shadow", "Sound and silence", "Form and formlessness",
  "Being and nonbeing", "Presence and absence", "Motion and stillness",
  "Unity and multiplicity", "Finite and infinite", "Sacred and profane",
  "Memory and forgetting", "Question and answer", "Search and discovery",
  "Journey and destination", "Dream and reality", "Time and eternity", "Self and other",
  "Known and unknown", "Spoken and unspoken", "Visible and invisible",
  "Zigzag", "Waves", "Spiral", "Bounce", "Slant", "Drip", "Stretch", "Squeeze",
  "Float", "Fall", "Spin", "Melt", "Rise", "Twist", "Explode", "Stack", "Mirror",
  "Echo", "Vibrate",
  "Gravity", "Friction", "Momentum", "Inertia", "Turbulence", "Pressure", "Tension",
  "Oscillate", "Fractal", "Quantum", "Entropy", "Vortex", "Resonance", "Equilibrium",
  "Centrifuge", "Elastic", "Viscous", "Refract", "Diffuse", "Cascade", "Levitate",
  "Magnetize", "Polarize", "Accelerate", "Compress", "Undulate",
  "Liminal", "Ephemeral", "Paradox", "Zeitgeist", "Metamorphosis", "Synesthesia",
  "Recursion", "Emergence", "Dialectic", "Apophenia", "Limbo", "Flux", "Sublime",
  "Uncanny", "Palimpsest", "Chimera", "Void", "Transcend", "Ineffable", "Qualia",
  "Gestalt", "Simulacra", "Abyssal",
  "Existential", "Nihilism", "Solipsism", "Phenomenology", "Hermeneutics",
  "Deconstruction", "Postmodern", "Absurdism", "Catharsis", "Epiphany", "Melancholy",
  "Nostalgia", "Longing", "Reverie", "Pathos", "Ethos", "Logos", "Mythos", "Anamnesis",
  "Intertextuality", "Metafiction", "Stream", "Lacuna", "Caesura", "Enjambment"]

/-- `new Set(...)` iteration order: keep the first occurrence of each
element. -/
def setDedup (seen : List String) : List String → List String
  | [] => []
  | x :: xs => if x ∈ seen then setDedup seen xs else x :: setDedup (x :: seen) xs

/-- `UNIQUE_WORDS = [...new Set(PREDEFINED_WORDS)]` (part_000 400). -/
def UNIQUE_WORDS : List String := setDedup [] PREDEFINED_WORDS

/-- What `handleRandom` produces: the new topic and the number of network
requests its body makes (the body is synchronous state updates only and
never calls `getRandomWord`). -/
structure RandomOut where
  newTopic : String
  networkCalls : Nat
deriving DecidableEq

/-- `handleRandom` (part_000 532-549) given the index
`Math.floor(Math.random() * UNIQUE_WORDS.length)`, which is always in
range. -/
def handleRandom (currentTopic : String) (randomIndex : Fin UNIQUE_WORDS.length) :
    RandomOut :=
  if jsToLower (UNIQUE_WORDS.get randomIndex) = jsToLower currentTopic then
    ⟨UNIQUE_WORDS.get
      ⟨(randomIndex.val + 1) % UNIQUE_WORDS.length,
        Nat.mod_lt _ randomIndex.pos⟩, 0⟩
  else ⟨UNIQUE_WORDS.get randomIndex, 0⟩

/-- The punctuation class `[.,!?;:()"']` removed by `InteractiveContent`
(part_001 25). -/
def punctChars : List Char := ['.', ',', '!', '?', ';', ':', '(', ')', '"', '\'']

/-- `word.replace(/[.,!?;:()"']/g, '')`. -/
def cleanWord (w : String) : String :=
  String.mk (w.data.filter (fun c => !(punctChars.contains c)))

/-- `handleWordClick` (part_000 516-522): trims, then updates the topic
and mode only when the result is non-empty and differs case-insensitively
from the current topic. -/
def handleWordClick (currentTopic : String) (mode : AppMode) (word : String) :
    String × AppMode :=
  if jsTrim word ≠ "" ∧ jsToLower (jsTrim word) ≠ jsToLower currentTopic then
    (jsTrim word, .wiki)
  else (currentTopic, mode)

/-- Clicking a displayed word: `InteractiveContent` renders a button for
a word only when its cleaned form is non-empty, and the button calls
`handleWordClick` with the cleaned form (part_001 21-37). -/
def clickDisplayedWord (currentTopic : String) (mode : AppMode) (w : String) :
    String × AppMode :=
  let cw := cleanWord w
  if cw = "" then (currentTopic, mode)
  else handleWordClick currentTopic mode cw

/-! ## The wiki-mode definition stream controller

`App`'s `fetchAllData` effect (part_000 432-514), restricted to the state
slices the definition stream touches (`content`, `error`, `isLoading`).
The art and cultural-concepts fetches update disjoint slices and are not
modelled.  Each run of the effect is a `Session` holding its captured
`isCancelled` flag (the effect cleanup of a superseded run sets it; the
model marks every previous session, all of which the cleanup chain has
already cancelled), its local `accumulatedContent`, and whether its
stream loop has exited.  Events model the event-loop interleaving: a
topic change (`start`), one stream-loop iteration delivering a chunk to a
session, and stream completion. -/

structure Session where
  topic : String
  cancelled : Bool
  done : Bool
  acc : String
deriving DecidableEq

structure WikiState where
  sessions : List Session
  content : String
  error : Option String
  isLoading : Bool
deriving DecidableEq

inductive WikiEvent where
  | start (topic : String)
  | chunk (sid : Nat) (text : String)
  | finish (sid : Nat)

/-- Effect cleanup: `isCancelled = true` for the superseded run. -/
def cancelAll (ss : List Session) : List Session :=
  ss.map (fun s => { s with cancelled := true })

/-- One event-loop step of the controller. -/
def stepW (st : WikiState) : WikiEvent → WikiState
  | .start t =>
    -- cleanup of the previous effect, then the new effect's prologue:
    -- setIsLoading(true); setError(null); setContent('')
    { sessions := cancelAll st.sessions ++ [⟨t, false, false, ""⟩],
      content := "", error := none, isLoading := true }
  | .chunk sid text =>
    match st.sessions.get? sid with
    | none => st
    | some s =>
      if s.cancelled || s.done then st  -- `if (isCancelled) break;`
      else if jsStartsWith text "Error:" then
        -- `throw new Error(chunk)`; catch: setError(chunk), setContent('');
        -- finally (not cancelled): setIsLoading(false)
        { st with sessions := st.sessions.set sid { s with done := true },
                  content := "", error := some text, isLoading := false }
      else
        -- accumulatedContent += chunk; setContent(accumulatedContent)
        { st with sessions := st.sessions.set sid { s with acc := s.acc ++ text },
                  content := s.acc ++ text }
  | .finish sid =>
    match st.sessions.get? sid with
    | none => st
    | some s =>
      if s.done then st
      else if s.cancelled then
        -- the loop exits; the finally block is suppressed
        { st with sessions := st.sessions.set sid { s with done := true } }
      else
        -- finally: setIsLoading(false)
        { st with sessions := st.sessions.set sid { s with done := true },
                  isLoading := false }

/-- Initial state (`useState` initialisers: content `''`, isLoading
`true`, error `null`; no fetch started yet). -/
def initW : WikiState := ⟨[], "", none, true⟩

/-- The controller state after a list of event-loop steps. -/
def runW (evts : List WikiEvent) : WikiState := evts.foldl stepW initW

/-- Invariant: every session except the most recent one is cancelled
(each topic change runs the cleanup of the effect it supersedes). -/
def OnlyLastLive (st : WikiState) : Prop :=
  ∀ i s, st.sessions.get? i = some s → i + 1 < st.sessions.length → s.cancelled = true

/-- Invariant: while an error is displayed, the current session's stream
loop has already exited. -/
def ErrorImpliesDone (st : WikiState) : Prop :=
  st.error.isSome = true → ∀ s, st.sessions.getLast? = some s → s.done = true

/-- Invariant: the displayed content is exactly the accumulated
fragments of the current (most recent) session — empty in the error
state and before any fetch. -/
def GoodContent (st : WikiState) : Prop :=
  st.content
    = if st.error.isSome then ""
      else ((st.sessions.getLast?).map Session.acc).getD ""

/-- The conjunction of the controller invariants. -/
def WikiInv (st : WikiState) : Prop :=
  OnlyLastLive st ∧ ErrorImpliesDone st ∧ GoodContent st

/-! ## Concrete parser and response stubs used in closed evaluations -/

/-- A stub parser used only in concrete evaluations: parses the one
payload `{"art":"X"}`. -/
def artParseStub : JsonParse := fun s =>
  if s = "\x7b\"art\":\"X\"\x7d" then .ok (.obj [("art", .str "X")])
  else .error "SyntaxError: Unexpected token"

/-- A remote environment whose first response fails validation and whose
second response would validate. -/
def artResponsesStub : Nat → Except String String := fun n =>
  if n = 0 then .ok "garbage" else .ok "\x7b\"art\":\"X\"\x7d"

/-- A stub parser used only in concrete evaluations: maps `{}` to an
empty object and `{"results":[]}` to an object with an empty `results`
array. -/
def phonoParseStub : JsonParse := fun s =>
  if s = "\x7b\x7d" then .ok (.obj [])
  else if s = "\x7b\"results\":[]\x7d" then .ok (.obj [("results", .arr [])])
  else .error "SyntaxError: Unexpected token"

/-- A stub parser used only in concrete evaluations: maps `[]` to the
empty array. -/
def conceptsParseStub : JsonParse := fun s =>
  if s = "[]" then .ok (.arr [])
  else .error "SyntaxError: Unexpected token"

/-! # Theorems -/

/-! ## Claim C2: missing credential short-circuits every operation -/

/-- Claim C2: for every topic string (and any remote environment and
parser), if no API credential is configured, each of the six API Gateway
operations short-circuits with its configuration error — `streamDefinition`
yields its documented configuration-error fragment, the five others raise
`API_KEY is not configured.` — and none performs any network request
(call count 0). -/
theorem c2_no_credential_short_circuits
    (topic word language : String) (env : StreamEnv) (parse : JsonParse)
    (resp : Except String String) (responses : Nat → Except String String)
    (filters : SearchFilters) :
    streamDefinition none topic env = ⟨[streamConfigFragment], none, 0⟩
    ∧ getRandomWord none resp = (.error configErrMsg, 0)
    ∧ generateAsciiArt none topic parse responses = (.error configErrMsg, 0)
    ∧ getCrossCulturalConcepts none topic parse resp = (.error configErrMsg, 0)
    ∧ performPhonosemanticSearch none filters parse resp = (.error configErrMsg, 0)
    ∧ getScriptForWord none word language parse resp = (.error configErrMsg, 0) := by
  refine ⟨rfl, rfl, rfl, ?_, ?_, rfl⟩
  · cases filters <;> rfl
  · cases filters <;> rfl

/-! ## Claim C4: streamDefinition's failure paths -/

/-- Claim C4 counterexample: with no credential configured — one of the
two failure cases the claim covers — `streamDefinition` yields exactly
the error-prefixed configuration fragment but then completes normally
without raising (`raised = none`), contradicting the claim that every
failure path ends in a raise. -/
theorem c4_counterexample :
    (streamDefinition none "Hypertext" (.ok ["alpha"])).yields = [streamConfigFragment]
    ∧ (streamDefinition none "Hypertext" (.ok ["alpha"])).raised = none := ⟨rfl, rfl⟩

/-- Claim C4 (amended): on a mid-stream remote error, `streamDefinition`
yields one error-prefixed fragment after the chunks already delivered and
then raises the error message; on a missing credential it yields exactly
one error-prefixed fragment and then completes normally without
raising. -/
theorem c4_stream_failure_paths (key topic msg : String) (chunks : List String)
    (env : StreamEnv) :
    streamDefinition (some key) topic (.failAfter chunks msg)
      = ⟨chunks.filter (fun c => c != "") ++ [errFragment topic msg], some msg, 1⟩
    ∧ streamDefinition none topic env = ⟨[streamConfigFragment], none, 0⟩ := ⟨rfl, rfl⟩

/-! ## Claim C1: generateAsciiArt's retry behaviour -/

/-- Claim C1 counterexample: with a credential configured and a first
response that fails validation, `generateAsciiArt` raises after exactly
one attempt even though a second attempt would have succeeded — so it
does not retry, and it does not raise "only after both attempts fail". -/
theorem c1_counterexample :
    generateAsciiArt (some "key") "explosion" artParseStub artResponsesStub
      = (.error
          "Could not generate ASCII art after 1 attempts: Response is not a valid JSON object",
         1)
    ∧ attemptArt artParseStub "\x7b\"art\":\"X\"\x7d" = .ok { art := "X" } := by
  constructor <;> rfl

/-- Claim C1 (amended): with a credential configured, `generateAsciiArt`
performs exactly one attempt (`maxRetries = 1`): it returns the first
attempt's result on success, and on any validation or transport failure
of that single attempt it raises immediately — with the failure message
wrapped in the `after 1 attempts` prefix — without a second attempt. -/
theorem c1_single_attempt_no_retry (key topic : String) (parse : JsonParse)
    (responses : Nat → Except String String) :
    generateAsciiArt (some key) topic parse responses
      = (match
          (match responses 0 with
           | .error e => Except.error e
           | .ok text => attemptArt parse text : Except String AsciiArtData) with
         | .ok a => Except.ok a
         | .error m =>
            Except.error ("Could not generate ASCII art after 1 attempts: " ++ m), 1) := by
  show artLoop parse responses 1 maxRetries none = _
  rcases h : (responses 0) with e | text
  · simp only [generateAsciiArt, artLoop, maxRetries, h]
    rfl
  · rcases h2 : attemptArt parse text with m | a <;>
      simp only [generateAsciiArt, artLoop, maxRetries, h, h2] <;> rfl

/-! ## Claim C6: performPhonosemanticSearch's results validation -/

/-- Claim C6: for every filters value and parsed payload, if the payload
is falsy or its `results` property is not an array
(`resultsField j = none`), `performPhonosemanticSearch` raises the
invalid-format error; and whenever `results` is an array — in particular
the empty one — that list is returned unchanged. -/
theorem c6_phono_results_validation (key text : String) (filters : SearchFilters)
    (parse : JsonParse) (j : Json) (hparse : parse (phonoPayload text) = .ok j) :
    (resultsField j = none →
      performPhonosemanticSearch (some key) filters parse (.ok text)
        = (.error "Could not perform phonosemantic search: Invalid response format from API.",
           1))
    ∧ ∀ rs, resultsField j = some rs →
        performPhonosemanticSearch (some key) filters parse (.ok text) = (.ok rs, 1) := by
  constructor
  · intro hnone
    cases filters
    simp only [performPhonosemanticSearch, hparse, hnone]
  · intro rs hsome
    cases filters
    simp only [performPhonosemanticSearch, hparse, hsome]

/-- Witness for C6 at concrete inputs: a payload with no `results` array
raises the invalid-format error, and a payload with an empty `results`
array returns the empty list untouched. -/
theorem c6_phono_results_validation_witness :
    performPhonosemanticSearch (some "key")
        ⟨.anyPos, "Sanskrit, Hebrew", false⟩ phonoParseStub (.ok "\x7b\x7d")
      = (.error "Could not perform phonosemantic search: Invalid response format from API.", 1)
    ∧ performPhonosemanticSearch (some "key")
        ⟨.anyPos, "Sanskrit, Hebrew", false⟩ phonoParseStub (.ok "\x7b\"results\":[]\x7d")
      = (.ok [], 1) :=
  ⟨(c6_phono_results_validation "key" "\x7b\x7d" ⟨.anyPos, "Sanskrit, Hebrew", false⟩
      phonoParseStub (.obj []) (by rfl)).1 (by rfl),
   (c6_phono_results_validation "key" "\x7b\"results\":[]\x7d"
      ⟨.anyPos, "Sanskrit, Hebrew", false⟩ phonoParseStub
      (.obj [("results", .arr [])]) (by rfl)).2 [] (by rfl)⟩

/-! ## Claim C8: length of the cultural-concepts list -/

/-- Claim C8 counterexample: on a response whose payload parses to an
empty array, `getCrossCulturalConcepts` resolves with that empty list,
whose length 0 is not between 3 and 5 — the 3–5 bound is requested in the
prompt but never validated. -/
theorem c8_counterexample :
    getCrossCulturalConcepts (some "key") "wabi-sabi" conceptsParseStub (.ok "[]")
      = (.ok [], 1)
    ∧ ¬(3 ≤ (List.length ([] : List Json)) ∧ (List.length ([] : List Json)) ≤ 5) :=
  ⟨rfl, by decide⟩

/-- Claim C8 (amended): `getCrossCulturalConcepts` asks the prompt for 3
to 5 concepts but validates only that the payload is an array: whatever
array the response parses to is returned unchanged, whatever its
length. -/
theorem c8_concepts_array_returned_unchanged (key topic text : String)
    (parse : JsonParse) (cs : List Json)
    (hparse : parse (conceptsPayload text) = .ok (.arr cs)) :
    getCrossCulturalConcepts (some key) topic parse (.ok text) = (.ok cs, 1) := by
  simp only [getCrossCulturalConcepts, hparse]

/-- Witness for C8's amended theorem at a concrete input: the empty
parsed array comes back unchanged. -/
theorem c8_concepts_array_returned_unchanged_witness :
    getCrossCulturalConcepts (some "key") "duende" conceptsParseStub (.ok "[]")
      = (.ok [], 1) :=
  c8_concepts_array_returned_unchanged "key" "duende" "[]" conceptsParseStub [] (by rfl)

/-! ## Claim C7: clicking a displayed word -/

/-- Claim C7: clicking a displayed word first strips the punctuation
class `[.,!?;:()"']` (so in particular any surrounding punctuation) and
trims the result before treating it as the new topic: the click is a
no-op whenever the cleaned word compares case-insensitively equal to the
current topic, any navigation goes to the cleaned trimmed word, and
concretely clicking `"word,"` over the topic `"Hypertext"` navigates to
`"word"`. -/
theorem c7_word_click_clean_and_guard (ct : String) (m : AppMode) (w : String) :
    (jsToLower (jsTrim (cleanWord w)) = jsToLower ct →
        clickDisplayedWord ct m w = (ct, m))
    ∧ ((clickDisplayedWord ct m w).1 = ct
        ∨ (clickDisplayedWord ct m w).1 = jsTrim (cleanWord w))
    ∧ clickDisplayedWord "Hypertext" .wiki "word," = ("word", .wiki) := by
  refine ⟨?_, ?_, by rfl⟩
  · intro hlow
    unfold clickDisplayedWord
    by_cases hcw : cleanWord w = ""
    · simp [hcw]
    · rw [if_neg hcw]
      unfold handleWordClick
      rw [if_neg]
      intro hand
      exact hand.2 hlow
  · unfold clickDisplayedWord handleWordClick
    by_cases hcw : cleanWord w = ""
    · simp [hcw]
    · rw [if_neg hcw]
      split
      · right; rfl
      · left; rfl

/-- Witness for C7 at a concrete input: clicking `"Word,"` while the
topic is already `"word"` (case-insensitively equal after cleaning) is a
no-op. -/
theorem c7_word_click_clean_and_guard_witness :
    clickDisplayedWord "word" .wiki "Word," = ("word", AppMode.wiki) :=
  (c7_word_click_clean_and_guard "word" .wiki "Word,").1 (by rfl)

/-! ## Claim C9: the Random button -/

/-- `setDedup` keeps the list duplicate-free and avoids everything
already seen. -/
theorem setDedup_nodup_and_avoids (l : List String) :
    ∀ seen, (setDedup seen l).Nodup ∧ ∀ x ∈ setDedup seen l, x ∉ seen := by
  induction l with
  | nil => intro seen; exact ⟨List.nodup_nil, by simp [setDedup]⟩
  | cons x xs ih =>
    intro seen
    by_cases hx : x ∈ seen
    · simpa [setDedup, hx] using ih seen
    · have h2 := ih (x :: seen)
      refine ⟨?_, ?_⟩
      · rw [setDedup, if_neg hx, List.nodup_cons]
        refine ⟨fun hmem => ?_, h2.1⟩
        exact h2.2 x hmem (List.mem_cons_self x seen)
      · intro y hy
        rw [setDedup, if_neg hx, List.mem_cons] at hy
        rcases hy with rfl | hy
        · exact hx
        · intro hseen
          exact h2.2 y hy (List.mem_cons_of_mem x hseen)

set_option maxRecDepth 8000 in
/-- Claim C9: the Random button is a pure local pick: it issues no
network request, the resulting topic is always an element of the fixed
deduplicated list `UNIQUE_WORDS` (which is duplicate-free), it returns
the word at the uniformly drawn index, and when that word compares
case-insensitively equal to the current topic it deterministically takes
the next word instead, wrapping around. -/
theorem c9_random_is_local_pick (ct : String) (idx : Fin UNIQUE_WORDS.length) :
    (handleRandom ct idx).newTopic ∈ UNIQUE_WORDS
    ∧ (handleRandom ct idx).networkCalls = 0
    ∧ (∀ h : (idx.val + 1) % UNIQUE_WORDS.length < UNIQUE_WORDS.length,
        jsToLower (UNIQUE_WORDS.get idx) = jsToLower ct →
          (handleRandom ct idx).newTopic
            = UNIQUE_WORDS.get ⟨(idx.val + 1) % UNIQUE_WORDS.length, h⟩)
    ∧ (jsToLower (UNIQUE_WORDS.get idx) ≠ jsToLower ct →
          (handleRandom ct idx).newTopic = UNIQUE_WORDS.get idx)
    ∧ UNIQUE_WORDS.Nodup := by
  refine ⟨?_, ?_, ?_, ?_, (setDedup_nodup_and_avoids PREDEFINED_WORDS []).1⟩
  · unfold handleRandom
    split
    · exact List.get_mem _ _ _
    · exact List.get_mem _ _ _
  · unfold handleRandom
    split <;> rfl
  · intro h hcoll
    unfold handleRandom
    rw [if_pos hcoll]
  · intro hne
    unfold handleRandom
    rw [if_neg hne]

set_option maxRecDepth 4000 in
/-- `UNIQUE_WORDS` is non-empty (its first element is `"Balance"`). -/
theorem uniqueWords_length_pos : 0 < UNIQUE_WORDS.length := by
  rw [show UNIQUE_WORDS = "Balance" :: setDedup ["Balance"] PREDEFINED_WORDS.tail from rfl]
  exact Nat.succ_pos _

set_option maxRecDepth 4000 in
/-- Witness for C9 at a concrete input: index 0 picks `"Balance"`; with
the current topic `"BALANCE"` the case-insensitive collision fires and
the result is the next word in the list. -/
theorem c9_random_is_local_pick_witness :
    jsToLower (UNIQUE_WORDS.get ⟨0, uniqueWords_length_pos⟩) = jsToLower "BALANCE"
    ∧ (handleRandom "BALANCE" ⟨0, uniqueWords_length_pos⟩).newTopic
        = UNIQUE_WORDS.get
            ⟨(0 + 1) % UNIQUE_WORDS.length, Nat.mod_lt _ uniqueWords_length_pos⟩ :=
  ⟨by rfl,
   (c9_random_is_local_pick "BALANCE" ⟨0, uniqueWords_length_pos⟩).2.2.1
     (Nat.mod_lt _ uniqueWords_length_pos) (by rfl)⟩

/-! ## Claim C3: code-fence unwrapping

The general lemmas below show that for any payload whose first and last
characters are not whitespace, the canonical fenced wrapping
`` ```json\n<payload>\n``` `` is matched by the regex with capture group 1
equal to the payload, so the three fence-stripping pipelines hand exactly
the payload to `JSON.parse`, whereas `getScriptForWord`'s pipeline leaves
the fenced text intact. -/

theorem headNonWs_cons {c : Char} {p : List Char} (h : headNonWs (c :: p) = true) :
    isJsWs c = false := by
  simpa [headNonWs] using h

theorem headNonWs_ne_nil {p : List Char} (h : headNonWs p = true) : p ≠ [] := by
  intro hnil
  subst hnil
  simp [headNonWs] at h

theorem lastNonWs_spec {p : List Char} (h : lastNonWs p = true) :
    ∀ c, p.getLast? = some c → isJsWs c = false := by
  intro c hc
  unfold lastNonWs at h
  rw [hc] at h
  simpa using h

theorem headNonWs_reverse (l : List Char) : headNonWs l.reverse = lastNonWs l := by
  unfold headNonWs lastNonWs
  rw [List.head?_reverse]

theorem dropWhile_eq_self_of_headNonWs {l : List Char} (h : headNonWs l = true) :
    l.dropWhile isJsWs = l := by
  cases l with
  | nil => rfl
  | cons c rest =>
    have hc := headNonWs_cons h
    simp [List.dropWhile_cons, hc]

/-- `trim()` leaves a string with non-whitespace endpoints unchanged. -/
theorem trimL_eq_self {l : List Char} (h1 : headNonWs l = true) (h2 : lastNonWs l = true) :
    trimL l = l := by
  have h2' : headNonWs l.reverse = true := by
    rw [headNonWs_reverse]
    exact h2
  unfold trimL
  rw [dropWhile_eq_self_of_headNonWs h1, dropWhile_eq_self_of_headNonWs h2',
    List.reverse_reverse]

/-- The remainder `\n?\s*```$` cannot match while a non-whitespace
payload character is still pending: everything before the final three
backquotes would have to be whitespace. -/
theorem wsTicksEnd_append_closeF {q : List Char} (hq : q ≠ [])
    (hl : ∀ c, q.getLast? = some c → isJsWs c = false) :
    wsTicksEnd (q ++ closeF) = false := by
  cases hws : wsTicksEnd (q ++ closeF) with
  | false => rfl
  | true =>
    exfalso
    unfold wsTicksEnd at hws
    have heq : (q ++ closeF).dropWhile isJsWs = ticks3 := eq_of_beq hws
    have hassoc : q ++ closeF = (q ++ ['\n']) ++ ticks3 := by
      simp [closeF, List.append_assoc]
    rw [hassoc] at heq
    have hsplit :=
      List.takeWhile_append_dropWhile (p := isJsWs) (l := (q ++ ['\n']) ++ ticks3)
    rw [heq] at hsplit
    have hinj := List.append_inj' hsplit rfl
    obtain ⟨x, hx⟩ : ∃ x, q.getLast? = some x := by
      cases hq' : q.getLast? with
      | none => exact absurd (List.getLast?_eq_none_iff.mp hq') hq
      | some x => exact ⟨x, rfl⟩
    have hxmem : x ∈ ((q ++ ['\n']) ++ ticks3).takeWhile isJsWs := by
      rw [hinj.1]
      exact List.mem_append_left _ (List.mem_of_getLast?_eq_some hx)
    have hxws := List.mem_takeWhile_imp hxmem
    rw [hl x hx] at hxws
    exact Bool.false_ne_true hxws

theorem tailMatch_closeF : tailMatch closeF = true := by decide

theorem tailMatch_append_closeF {q : List Char} (hq : q ≠ [])
    (hl : ∀ c, q.getLast? = some c → isJsWs c = false) :
    tailMatch (q ++ closeF) = false := by
  cases q with
  | nil => exact absurd rfl hq
  | cons c q' =>
    rw [List.cons_append]
    show (if c = '\n' then wsTicksEnd (q' ++ closeF) || wsTicksEnd (c :: (q' ++ closeF))
          else wsTicksEnd (c :: (q' ++ closeF))) = false
    have h1 : wsTicksEnd (c :: (q' ++ closeF)) = false := by
      have := wsTicksEnd_append_closeF (List.cons_ne_nil c q') hl
      rwa [List.cons_append] at this
    by_cases hc : c = '\n'
    · subst hc
      rw [if_pos rfl, h1]
      have h2 : wsTicksEnd (q' ++ closeF) = false := by
        cases q' with
        | nil =>
          exfalso
          have := hl '\n' rfl
          simp [isJsWs] at this
        | cons d q'' =>
          refine wsTicksEnd_append_closeF (List.cons_ne_nil d q'') ?_
          intro e he
          exact hl e (by rw [List.getLast?_cons_cons]; exact he)
      rw [h2]
      rfl
    · rw [if_neg hc, h1]

/-- The lazy capture grows until exactly the payload is captured. -/
theorem lazyCapture_fenced (q : List Char) (hq : q ≠ [])
    (hl : ∀ c, q.getLast? = some c → isJsWs c = false) :
    ∀ acc, lazyCapture acc (q ++ closeF) = some (acc.reverse ++ q) := by
  induction q with
  | nil => exact absurd rfl hq
  | cons c q' ih =>
    intro acc
    have hfalse : tailMatch (c :: (q' ++ closeF)) = false := by
      have := tailMatch_append_closeF (List.cons_ne_nil c q') hl
      rwa [List.cons_append] at this
    have hstep : lazyCapture acc ((c :: q') ++ closeF)
        = lazyCapture (c :: acc) (q' ++ closeF) := by
      show (if tailMatch (c :: (q' ++ closeF)) = true then some acc.reverse
            else lazyCapture (c :: acc) (q' ++ closeF))
          = lazyCapture (c :: acc) (q' ++ closeF)
      rw [hfalse]
      simp
    rw [hstep]
    cases q' with
    | nil =>
      show (if tailMatch ('\n' :: ticks3) = true then some (c :: acc).reverse
            else lazyCapture ('\n' :: c :: acc) ticks3) = some (acc.reverse ++ [c])
      rw [show tailMatch ('\n' :: ticks3) = true from tailMatch_closeF]
      simp [List.reverse_cons]
    | cons d q'' =>
      have hl' : ∀ e, (d :: q'').getLast? = some e → isJsWs e = false := by
        intro e he
        exact hl e (by rw [List.getLast?_cons_cons]; exact he)
      rw [ih (List.cons_ne_nil d q'') hl' (c :: acc)]
      simp [List.reverse_cons, List.append_assoc]

/-- After `\s*\n?` the payload starts with a non-whitespace character,
so the capture begins right there. -/
theorem wsSearch_payload {p : List Char} (h1 : headNonWs p = true) (h2 : lastNonWs p = true) :
    wsSearch (p ++ closeF) = some p := by
  cases p with
  | nil => exact absurd h1 (by simp [headNonWs])
  | cons c p' =>
    have hc : isJsWs c = false := headNonWs_cons h1
    have hcn : ¬(c = '\n') := by
      intro h
      subst h
      simp [isJsWs] at hc
    have hstep : wsSearch ((c :: p') ++ closeF) = nlOptThenCapture (c :: (p' ++ closeF)) := by
      show (if isJsWs c = true then
              (wsSearch (p' ++ closeF)).orElse
                (fun _ => nlOptThenCapture (c :: (p' ++ closeF)))
            else nlOptThenCapture (c :: (p' ++ closeF)))
          = nlOptThenCapture (c :: (p' ++ closeF))
      rw [hc]
      simp
    rw [hstep]
    show (if c = '\n' then
            (lazyCapture [] (p' ++ closeF)).orElse
              (fun _ => lazyCapture [] (c :: (p' ++ closeF)))
          else lazyCapture [] (c :: (p' ++ closeF))) = some (c :: p')
    rw [if_neg hcn]
    have := lazyCapture_fenced (c :: p') (List.cons_ne_nil c p') (lastNonWs_spec h2) []
    rw [List.cons_append] at this
    simpa using this

/-- The greedy `\s*` consumes the newline after `json` and the rest of
the match goes through. -/
theorem wsSearch_nl_payload {p : List Char} (h1 : headNonWs p = true)
    (h2 : lastNonWs p = true) :
    wsSearch ('\n' :: (p ++ closeF)) = some p := by
  show (if isJsWs '\n' = true then
          (wsSearch (p ++ closeF)).orElse
            (fun _ => nlOptThenCapture ('\n' :: (p ++ closeF)))
        else nlOptThenCapture ('\n' :: (p ++ closeF))) = some p
  rw [if_pos (show isJsWs '\n' = true from rfl), wsSearch_payload h1 h2]
  rfl

/-- The regex matches the canonical fenced block with capture group 1
equal to the payload. -/
theorem fenceMatch_fenceWrap {p : List Char} (h1 : headNonWs p = true)
    (h2 : lastNonWs p = true) :
    fenceMatch (fenceWrap p) = some p := by
  show (if (fenceWrap p).take 3 = ticks3 then afterTicks ((fenceWrap p).drop 3) else none)
      = some p
  rw [if_pos (show (fenceWrap p).take 3 = ticks3 from rfl)]
  show afterTicks ('j' :: 's' :: 'o' :: 'n' :: '\n' :: (p ++ closeF)) = some p
  unfold afterTicks
  rw [if_pos (show ('j' :: 's' :: 'o' :: 'n' :: '\n' :: (p ++ closeF) : List Char).take 4
        = ['j', 's', 'o', 'n'] from rfl)]
  show (wsSearch ('\n' :: (p ++ closeF))).orElse
      (fun _ => wsSearch ('j' :: 's' :: 'o' :: 'n' :: '\n' :: (p ++ closeF))) = some p
  rw [wsSearch_nl_payload h1 h2]
  rfl

/-- The fenced block itself has non-whitespace endpoints, so the leading
`trim()` leaves it unchanged. -/
theorem trimL_fenceWrap (p : List Char) : trimL (fenceWrap p) = fenceWrap p := by
  apply trimL_eq_self
  · rfl
  · unfold lastNonWs
    rw [show fenceWrap p
          = [bq, bq, bq, 'j', 's', 'o', 'n', '\n'] ++ (p ++ closeF) from rfl]
    rw [List.getLast?_append, List.getLast?_append]
    rw [show closeF.getLast? = some bq from rfl]
    rfl

/-- Claim C3 counterexample: for the spec's example response
`` ```json\n{"art":"X"}\n``` ``, `getScriptForWord`'s pipeline parses the
fenced text itself, not the unwrapped payload `{"art":"X"}` — the fence
is only stripped by the other three operations (shown here for
`generateAsciiArt`). -/
theorem c3_counterexample :
    scriptPayload "```json\n\x7b\"art\":\"X\"\x7d\n```"
      = "```json\n\x7b\"art\":\"X\"\x7d\n```"
    ∧ scriptPayload "```json\n\x7b\"art\":\"X\"\x7d\n```" ≠ "\x7b\"art\":\"X\"\x7d"
    ∧ artPayload "```json\n\x7b\"art\":\"X\"\x7d\n```" = "\x7b\"art\":\"X\"\x7d" :=
  ⟨rfl, by decide, by rfl⟩

/-- Claim C3 (amended): for every payload with non-whitespace endpoints,
a response wrapped in the canonical fenced code block
`` ```json\n<payload>\n``` `` is unwrapped before parsing by
`generateAsciiArt`, `getCrossCulturalConcepts` and
`performPhonosemanticSearch` — the inner payload is what gets parsed —
while `getScriptForWord` parses the fenced text unchanged. -/
theorem c3_fence_unwrapped_except_script (p : List Char)
    (h1 : headNonWs p = true) (h2 : lastNonWs p = true) :
    artPayload (String.mk (fenceWrap p)) = String.mk p
    ∧ conceptsPayload (String.mk (fenceWrap p)) = String.mk p
    ∧ phonoPayload (String.mk (fenceWrap p)) = String.mk p
    ∧ scriptPayload (String.mk (fenceWrap p)) = String.mk (fenceWrap p) := by
  have hpayload : fencedPayloadL (fenceWrap p) = p := by
    unfold fencedPayloadL
    rw [trimL_fenceWrap]
    unfold applyFenceL
    rw [fenceMatch_fenceWrap h1 h2]
    show (if p = [] then fenceWrap p else trimL p) = p
    rw [if_neg (headNonWs_ne_nil h1)]
    exact trimL_eq_self h1 h2
  refine ⟨?_, ?_, ?_, ?_⟩
  · show String.mk (fencedPayloadL (fenceWrap p)) = String.mk p
    rw [hpayload]
  · show String.mk (fencedPayloadL (fenceWrap p)) = String.mk p
    rw [hpayload]
  · show String.mk (fencedPayloadL (fenceWrap p)) = String.mk p
    rw [hpayload]
  · show String.mk (trimL (fenceWrap p)) = String.mk (fenceWrap p)
    rw [trimL_fenceWrap]

/-- Witness for C3's amended theorem at the spec's example payload
`{"art":"X"}`. -/
theorem c3_fence_unwrapped_except_script_witness :
    headNonWs ("\x7b\"art\":\"X\"\x7d".data) = true
    ∧ artPayload (String.mk (fenceWrap ("\x7b\"art\":\"X\"\x7d".data)))
        = String.mk ("\x7b\"art\":\"X\"\x7d".data)
    ∧ scriptPayload (String.mk (fenceWrap ("\x7b\"art\":\"X\"\x7d".data)))
        = String.mk (fenceWrap ("\x7b\"art\":\"X\"\x7d".data)) :=
  ⟨by decide,
   (c3_fence_unwrapped_except_script ("\x7b\"art\":\"X\"\x7d".data)
      (by decide) (by decide)).1,
   (c3_fence_unwrapped_except_script ("\x7b\"art\":\"X\"\x7d".data)
      (by decide) (by decide)).2.2.2⟩

/-! ## Claims C5 and C10: the wiki-mode stream controller -/

theorem get?_some_lt {α : Type} {l : List α} {i : Nat} {a : α}
    (h : l.get? i = some a) : i < l.length := by
  by_contra hn
  rw [List.get?_len_le (Nat.le_of_not_lt hn)] at h
  cases h

theorem getLast?_set_last {ss : List Session} {sid : Nat} (hsid : sid + 1 = ss.length)
    (s' : Session) : (ss.set sid s').getLast? = some s' := by
  rw [List.getLast?_eq_getElem?, List.length_set]
  have h1 : ss.length - 1 = sid := by omega
  rw [h1, List.getElem?_set_self (by omega)]

theorem getLast?_set_ne_last {ss : List Session} {sid : Nat} (hsid : ¬sid + 1 = ss.length)
    (s' : Session) : (ss.set sid s').getLast? = ss.getLast? := by
  cases ss with
  | nil => simp
  | cons a l =>
    rw [List.getLast?_eq_getElem?, List.getLast?_eq_getElem?, List.length_set]
    rw [List.getElem?_set_ne (by simp at hsid ⊢; omega)]

/-- Updating one session without touching its `cancelled` flag preserves
the only-last-live invariant. -/
theorem onlyLastLive_set {st : WikiState} (hOL : OnlyLastLive st) {sid : Nat}
    {s : Session} (s' : Session) (hget : st.sessions.get? sid = some s)
    (hc : s'.cancelled = s.cancelled) {content' : String} {error' : Option String}
    {load' : Bool} :
    OnlyLastLive { sessions := st.sessions.set sid s', content := content',
                   error := error', isLoading := load' } := by
  intro i t hget' hlt
  simp only at hget' hlt
  rw [List.get?_eq_getElem?] at hget'
  rw [List.length_set] at hlt
  by_cases hi : i = sid
  · subst hi
    rw [List.getElem?_set_self (get?_some_lt hget)] at hget'
    injection hget' with hh
    rw [← hh, hc]
    exact hOL i s hget hlt
  · rw [List.getElem?_set_ne (by omega)] at hget'
    exact hOL i t (by rw [List.get?_eq_getElem?]; exact hget') hlt

/-- The current session, read through `get?` at the last index. -/
theorem getLast?_of_get?_last {ss : List Session} {sid : Nat} {s : Session}
    (hget : ss.get? sid = some s) (hsid : sid + 1 = ss.length) :
    ss.getLast? = some s := by
  rw [List.getLast?_eq_getElem?]
  have h1 : ss.length - 1 = sid := by omega
  rw [h1, ← List.get?_eq_getElem?]
  exact hget

/-- A session that is neither cancelled nor done is the current one. -/
theorem live_is_last {st : WikiState} (hOL : OnlyLastLive st) {sid : Nat} {s : Session}
    (hget : st.sessions.get? sid = some s) (hcanc : s.cancelled = false) :
    sid + 1 = st.sessions.length := by
  rcases Nat.lt_or_ge (sid + 1) st.sessions.length with hlt | hge
  · have := hOL sid s hget hlt
    rw [hcanc] at this
    cases this
  · have := get?_some_lt hget
    omega

/-- Marking the current session done (with any `isLoading` value and the
other visible slices unchanged) preserves the invariants. -/
theorem wikiInv_mark_done {st : WikiState} (h : WikiInv st) {sid : Nat} {s : Session}
    (hget : st.sessions.get? sid = some s) (load : Bool) :
    WikiInv { sessions := st.sessions.set sid { s with done := true },
              content := st.content, error := st.error, isLoading := load } := by
  obtain ⟨hOL, hED, hGC⟩ := h
  refine ⟨onlyLastLive_set hOL { s with done := true } hget rfl, ?_, ?_⟩
  · intro hsome s' hlast'
    simp only at hsome hlast'
    by_cases hsid : sid + 1 = st.sessions.length
    · rw [getLast?_set_last hsid] at hlast'
      injection hlast' with hh
      rw [← hh]
    · rw [getLast?_set_ne_last hsid] at hlast'
      exact hED hsome s' hlast'
  · show st.content = _
    by_cases hsid : sid + 1 = st.sessions.length
    · have hlast := getLast?_of_get?_last hget hsid
      rw [hGC, hlast]
      simp only [getLast?_set_last hsid]
      rfl
    · simp only [getLast?_set_ne_last hsid]
      exact hGC

/-- One controller step preserves the invariants. -/
theorem stepW_inv {st : WikiState} (e : WikiEvent) (h : WikiInv st) :
    WikiInv (stepW st e) := by
  obtain ⟨hOL, hED, hGC⟩ := h
  cases e with
  | start t =>
    refine ⟨?_, ?_, ?_⟩
    · intro i s hget hlt
      simp only [stepW] at hget hlt
      rw [List.get?_eq_getElem?] at hget
      have hlen : (cancelAll st.sessions).length = st.sessions.length := by
        simp [cancelAll]
      rw [List.length_append, hlen] at hlt
      have hi : i < st.sessions.length := by
        simp only [List.length_cons, List.length_nil] at hlt
        omega
      rw [List.getElem?_append_left (by rw [hlen]; exact hi)] at hget
      simp only [cancelAll, List.getElem?_map] at hget
      obtain ⟨s0, _, rfl⟩ := Option.map_eq_some'.mp hget
      rfl
    · intro hsome
      simp only [stepW] at hsome
      cases hsome
    · show ("" : String) = _
      simp only [stepW, List.getLast?_concat]
      rfl
  | chunk sid text =>
    cases hget : st.sessions.get? sid with
    | none =>
      have hstep : stepW st (.chunk sid text) = st := by
        simp only [stepW, hget]
      rw [hstep]
      exact ⟨hOL, hED, hGC⟩
    | some s =>
      by_cases hcd : (s.cancelled || s.done) = true
      · have hstep : stepW st (.chunk sid text) = st := by
          simp only [stepW, hget, hcd, if_true]
        rw [hstep]
        exact ⟨hOL, hED, hGC⟩
      · have hcanc : s.cancelled = false := by
          cases hc : s.cancelled
          · rfl
          · exact absurd (by rw [hc]; rfl) hcd
        have hdone : s.done = false := by
          cases hd : s.done
          · rfl
          · exact absurd (by rw [hd, Bool.or_true]) hcd
        have hsid : sid + 1 = st.sessions.length := live_is_last hOL hget hcanc
        have hgetE : st.sessions[sid]? = some s := by
          rw [← List.get?_eq_getElem?]
          exact hget
        by_cases herr : jsStartsWith text "Error:" = true
        · have hstep : stepW st (.chunk sid text)
              = { sessions := st.sessions.set sid { s with done := true },
                  content := "", error := some text, isLoading := false } := by
            simp [stepW, hgetE, hcanc, hdone, herr]
          rw [hstep]
          refine ⟨onlyLastLive_set hOL { s with done := true } hget rfl, ?_, ?_⟩
          · intro _ s' hlast'
            simp only at hlast'
            rw [getLast?_set_last hsid] at hlast'
            injection hlast' with hh
            rw [← hh]
          · show ("" : String) = _
            rfl
        · have herr' : jsStartsWith text "Error:" = false := by
            cases he : jsStartsWith text "Error:"
            · rfl
            · exact absurd he herr
          have herrnone : st.error = none := by
            cases he : st.error with
            | none => rfl
            | some m =>
              exfalso
              have hsome : st.error.isSome = true := by rw [he]; rfl
              have := hED hsome s (getLast?_of_get?_last hget hsid)
              rw [hdone] at this
              cases this
          have hstep : stepW st (.chunk sid text)
              = { sessions := st.sessions.set sid { s with acc := s.acc ++ text },
                  content := s.acc ++ text, error := st.error,
                  isLoading := st.isLoading } := by
            simp [stepW, hgetE, hcanc, hdone, herr']
          rw [hstep]
          refine ⟨onlyLastLive_set hOL { s with acc := s.acc ++ text } hget rfl, ?_, ?_⟩
          · intro hsome
            simp only at hsome
            rw [herrnone] at hsome
            cases hsome
          · show s.acc ++ text = _
            simp only [herrnone, getLast?_set_last hsid]
            rfl
  | finish sid =>
    cases hget : st.sessions.get? sid with
    | none =>
      have hstep : stepW st (.finish sid) = st := by
        simp only [stepW, hget]
      rw [hstep]
      exact ⟨hOL, hED, hGC⟩
    | some s =>
      by_cases hdone : s.done = true
      · have hstep : stepW st (.finish sid) = st := by
          simp only [stepW, hget, hdone, if_true]
        rw [hstep]
        exact ⟨hOL, hED, hGC⟩
      · have hdone2 : s.done = false := by
          cases hd : s.done
          · rfl
          · exact absurd hd hdone
        have hgetE : st.sessions[sid]? = some s := by
          rw [← List.get?_eq_getElem?]
          exact hget
        by_cases hcanc : s.cancelled = true
        · have hstep : stepW st (.finish sid)
              = { sessions := st.sessions.set sid { s with done := true },
                  content := st.content, error := st.error,
                  isLoading := st.isLoading } := by
            simp [stepW, hgetE, hdone2, hcanc]
          rw [hstep]
          exact wikiInv_mark_done ⟨hOL, hED, hGC⟩ hget st.isLoading
        · have hcanc2 : s.cancelled = false := by
            cases hc : s.cancelled
            · rfl
            · exact absurd hc hcanc
          have hstep : stepW st (.finish sid)
              = { sessions := st.sessions.set sid { s with done := true },
                  content := st.content, error := st.error, isLoading := false } := by
            simp [stepW, hgetE, hdone2, hcanc2]
          rw [hstep]
          exact wikiInv_mark_done ⟨hOL, hED, hGC⟩ hget false

/-- The invariants hold in every reachable controller state. -/
theorem runW_inv (evts : List WikiEvent) : WikiInv (runW evts) := by
  have hinit : WikiInv initW := by
    refine ⟨?_, ?_, ?_⟩
    · intro i s hg _
      simp [initW] at hg
    · intro hsome
      simp [initW] at hsome
    · show ("" : String) = _
      rfl
  suffices hstep : ∀ (l : List WikiEvent) (st : WikiState),
      WikiInv st → WikiInv (List.foldl stepW st l) from hstep evts initW hinit
  intro l
  induction l with
  | nil => intro st h; exact h
  | cons e l ih =>
    intro st h
    exact ih _ (stepW_inv e h)

/-- Claim C5: displayed definition content never mixes topics.  In every
reachable controller state the content equals exactly the fragment
accumulation of the most recent session (empty in the error state); a
stream-loop iteration of any superseded session is a complete no-op on
the state; completion of a superseded stream changes none of the visible
slices; and a topic change immediately clears the content. -/
theorem c5_superseded_fetch_never_leaks (evts : List WikiEvent) :
    ((runW evts).content
        = if (runW evts).error.isSome then ""
          else (((runW evts).sessions.getLast?).map Session.acc).getD "")
    ∧ (∀ sid text, sid + 1 < (runW evts).sessions.length →
        stepW (runW evts) (.chunk sid text) = runW evts)
    ∧ (∀ sid, sid + 1 < (runW evts).sessions.length →
        (stepW (runW evts) (.finish sid)).content = (runW evts).content
          ∧ (stepW (runW evts) (.finish sid)).error = (runW evts).error
          ∧ (stepW (runW evts) (.finish sid)).isLoading = (runW evts).isLoading)
    ∧ (∀ t, (stepW (runW evts) (.start t)).content = "") := by
  obtain ⟨hOL, hED, hGC⟩ := runW_inv evts
  refine ⟨hGC, ?_, ?_, fun t => rfl⟩
  · intro sid text hlt
    cases hget : (runW evts).sessions.get? sid with
    | none => simp only [stepW, hget]
    | some s =>
      have hcanc := hOL sid s hget hlt
      have hgetE : (runW evts).sessions[sid]? = some s := by
        rw [← List.get?_eq_getElem?]
        exact hget
      simp [stepW, hgetE, hcanc]
  · intro sid hlt
    cases hget : (runW evts).sessions.get? sid with
    | none =>
      have hstep : stepW (runW evts) (.finish sid) = runW evts := by
        simp only [stepW, hget]
      rw [hstep]
      exact ⟨rfl, rfl, rfl⟩
    | some s =>
      have hcanc := hOL sid s hget hlt
      by_cases hdone : s.done = true
      · have hstep : stepW (runW evts) (.finish sid) = runW evts := by
          simp only [stepW, hget, hdone, if_true]
        rw [hstep]
        exact ⟨rfl, rfl, rfl⟩
      · have hdone' : s.done = false := by
          cases hd : s.done
          · rfl
          · exact absurd hd hdone
        have hgetE : (runW evts).sessions[sid]? = some s := by
          rw [← List.get?_eq_getElem?]
          exact hget
        have hstep : stepW (runW evts) (.finish sid)
            = { sessions := (runW evts).sessions.set sid { s with done := true },
                content := (runW evts).content, error := (runW evts).error,
                isLoading := (runW evts).isLoading } := by
          simp [stepW, hgetE, hdone', hcanc]
        rw [hstep]
        exact ⟨rfl, rfl, rfl⟩

/-- Witness for C5 at a concrete event sequence: after starting topic
`"A"` and then topic `"B"`, a late chunk for the superseded session 0
leaves the state untouched, and a further topic change clears the
content. -/
theorem c5_superseded_fetch_never_leaks_witness :
    stepW (runW [.start "A", .start "B"]) (.chunk 0 "alpha")
        = runW [.start "A", .start "B"]
    ∧ (stepW (runW [.start "A", .start "B"]) (.start "C")).content = "" :=
  ⟨(c5_superseded_fetch_never_leaks [.start "A", .start "B"]).2.1 0 "alpha" (by decide),
   (c5_superseded_fetch_never_leaks [.start "A", .start "B"]).2.2.2 "C"⟩

/-- Claim C10: a streamed chunk whose text starts with `Error:`,
delivered to the live session, is treated as a stream failure: the
accumulated content is cleared, the chunk text is stored as the
user-visible error, and loading ends — so such a fragment is never
displayed as content. -/
theorem c10_error_prefixed_chunk_is_failure (evts : List WikiEvent) (sid : Nat)
    (text : String) (s : Session)
    (hget : (runW evts).sessions.get? sid = some s)
    (hcanc : s.cancelled = false) (hdone : s.done = false)
    (herr : jsStartsWith text "Error:" = true) :
    (stepW (runW evts) (.chunk sid text)).content = ""
    ∧ (stepW (runW evts) (.chunk sid text)).error = some text
    ∧ (stepW (runW evts) (.chunk sid text)).isLoading = false := by
  have hgetE : (runW evts).sessions[sid]? = some s := by
    rw [← List.get?_eq_getElem?]
    exact hget
  have hstep : stepW (runW evts) (.chunk sid text)
      = { sessions := (runW evts).sessions.set sid { s with done := true },
          content := "", error := some text, isLoading := false } := by
    simp [stepW, hgetE, hcanc, hdone, herr]
  rw [hstep]
  exact ⟨rfl, rfl, rfl⟩

/-- Witness for C10 at a concrete input: the first chunk for topic `"A"`
arrives as `"Error: boom"` and becomes the displayed error with empty
content. -/
theorem c10_error_prefixed_chunk_is_failure_witness :
    (stepW (runW [.start "A"]) (.chunk 0 "Error: boom")).content = ""
    ∧ (stepW (runW [.start "A"]) (.chunk 0 "Error: boom")).error = some "Error: boom"
    ∧ (stepW (runW [.start "A"]) (.chunk 0 "Error: boom")).isLoading = false :=
  c10_error_prefixed_chunk_is_failure [.start "A"] 0 "Error: boom"
    ⟨"A", false, false, ""⟩ (by rfl) (by rfl) (by rfl) (by decide)

end Vegvisr
